import Mathlib

/-!
Verification of the chart rendering pipeline of the dex-sscr repository:
the min-max downsampler, the coordinate scaler, the axis price formatter,
the metrics builder and the chart generation orchestrator, shallowly
embedded from the TypeScript source.  JavaScript numbers are modelled as
exact rational numbers; where the code can produce the special values
`NaN`/`Infinity` (division), a dedicated value type `JSVal` mirrors the
IEEE semantics (binary rounding itself is not modelled).
-/

set_option maxRecDepth 10000

/-- A chart data point (src/types.ts `Point`): timestamp `t` in
milliseconds and value `y` (price). -/
structure Point where
  t : ℚ
  y : ℚ
deriving DecidableEq, Repr

/-- From `extractMinMaxFromBin` (src/utils/db.ts and
src/utils/chart-calculations.ts, identical bodies): walk the bin keeping
the first point of minimal `y` and the first point of maximal `y`
(strict comparisons keep the earliest occurrence), then return the two in
temporal order; `none` on an empty bin.  The JavaScript loop starts both
accumulators at `bin[0]` and re-visits `bin[0]`, which the fold mirrors. -/
def extractMinMaxFromBin (bin : List Point) : Option (List Point) :=
  match bin with
  | [] => none
  | p0 :: _ =>
    let mm := bin.foldl
      (fun (acc : Point × Point) point =>
        ((if point.y < acc.1.y then point else acc.1),
         (if point.y > acc.2.y then point else acc.2)))
      (p0, p0)
    some (if mm.1.t < mm.2.t then [mm.1, mm.2] else [mm.2, mm.1])

/-- From `processBins` (src/utils/db.ts): slice the series into
consecutive bins of `binSize` points (`points.slice(i, i + binSize)` with
`i` advancing by `binSize`) and concatenate each bin's min/max
extraction.  The loop is modelled by take/drop recursion; `binSize = 0`
never occurs at call sites and returns `[]` to keep the function total. -/
def processBins (points : List Point) (binSize : Nat) : List Point :=
  if h : binSize = 0 ∨ points = [] then []
  else
    (match extractMinMaxFromBin (points.take binSize) with
      | none => []
      | some pair => pair) ++ processBins (points.drop binSize) binSize
termination_by points.length
decreasing_by
  have h1 : binSize ≠ 0 := fun hb => h (Or.inl hb)
  have h2 : points ≠ [] := fun hp => h (Or.inr hp)
  have h3 : 0 < points.length := List.length_pos.mpr h2
  simp only [List.length_drop]
  omega

/-- From `downsampleMinMax` (src/utils/db.ts): return the series
unchanged when `points.length <= targetWidth * 2`, otherwise bin it with
`binSize = Math.ceil(points.length / targetWidth)` (exact ceiling
division for integer operands and `targetWidth ≥ 1`, written
`(n + w - 1) / w` on naturals) and extract per-bin extremes. -/
def downsampleMinMax (points : List Point) (targetWidth : Nat) : List Point :=
  if points.length ≤ targetWidth * 2 then points
  else processBins points ((points.length + targetWidth - 1) / targetWidth)

/-- A JavaScript number for the scaler arithmetic: an exact rational, or
one of the IEEE special values `NaN`, `Infinity`, `-Infinity` that the
code can produce (division) or uses as loop seeds
(`Number.POSITIVE_INFINITY` / `Number.NEGATIVE_INFINITY`).  Signed zero
and binary rounding are not modelled. -/
inductive JSVal where
  | num : ℚ → JSVal
  | nan : JSVal
  | inf : JSVal
  | neginf : JSVal
deriving DecidableEq, Repr

namespace JSVal

/-- IEEE negation. -/
def neg : JSVal → JSVal
  | num q => num (-q)
  | nan => nan
  | inf => neginf
  | neginf => inf

/-- IEEE addition (exact on finite values). -/
def add : JSVal → JSVal → JSVal
  | num a, num b => num (a + b)
  | nan, _ => nan
  | _, nan => nan
  | inf, neginf => nan
  | neginf, inf => nan
  | inf, _ => inf
  | _, inf => inf
  | neginf, _ => neginf
  | _, neginf => neginf

/-- IEEE subtraction. -/
def sub (a b : JSVal) : JSVal := add a (neg b)

/-- IEEE multiplication (exact on finite values). -/
def mul : JSVal → JSVal → JSVal
  | num a, num b => num (a * b)
  | nan, _ => nan
  | _, nan => nan
  | inf, inf => inf
  | inf, neginf => neginf
  | neginf, inf => neginf
  | neginf, neginf => inf
  | inf, num b => if b = 0 then nan else if 0 < b then inf else neginf
  | num a, inf => if a = 0 then nan else if 0 < a then inf else neginf
  | neginf, num b => if b = 0 then nan else if 0 < b then neginf else inf
  | num a, neginf => if a = 0 then nan else if 0 < a then neginf else inf

/-- IEEE division (exact on finite values); in particular `0/0 = NaN`
and `a/0 = ±Infinity` for finite `a ≠ 0`. -/
def div : JSVal → JSVal → JSVal
  | num a, num b =>
      if b = 0 then (if a = 0 then nan else if 0 < a then inf else neginf)
      else num (a / b)
  | nan, _ => nan
  | _, nan => nan
  | inf, inf => nan
  | inf, neginf => nan
  | neginf, inf => nan
  | neginf, neginf => nan
  | inf, num b => if 0 ≤ b then inf else neginf
  | neginf, num b => if 0 ≤ b then neginf else inf
  | num _, inf => num 0
  | num _, neginf => num 0

/-- The JavaScript `<` comparison: `false` whenever `NaN` is involved. -/
def lt : JSVal → JSVal → Bool
  | num a, num b => decide (a < b)
  | nan, _ => false
  | _, nan => false
  | inf, _ => false
  | _, inf => true
  | neginf, num _ => true
  | _, _ => false

/-- The JavaScript `>` comparison. -/
def gt (a b : JSVal) : Bool := lt b a

/-- JavaScript truthiness of a number: `0` and `NaN` are falsy. -/
def truthy : JSVal → Bool
  | num q => decide (q ≠ 0)
  | nan => false
  | inf => true
  | neginf => true

end JSVal

/-- The JavaScript `a || b` on numbers: `b` when `a` is falsy. -/
def jsOr (a b : JSVal) : JSVal := if a.truthy then a else b

/-- The constant `CHART_STYLE.Y_MARGIN_RATIO` (src/constants.ts),
`0.06`.  A lexical restriction of this development prevents using the
upper-case source name verbatim. -/
def yMarginRatio : ℚ := 6 / 100

/-- Pixel insets of the inner plot rectangle (src/types.ts
`ChartPadding`): left, right, top, bottom. -/
structure ChartPadding where
  l : ℚ
  r : ℚ
  t : ℚ
  b : ℚ
deriving DecidableEq, Repr

/-- A pixel-space coordinate produced by the scaler (src/types.ts
`Coordinate`). -/
structure Coordinate where
  x : JSVal
  y : JSVal
deriving DecidableEq, Repr

/-- Input of `scalePointsToCanvas` (chart generator `ScalingParams`). -/
structure ScalingParams where
  points : List Point
  canvasWidth : ℚ
  canvasHeight : ℚ
  padding : ChartPadding

/-- Output of `scalePointsToCanvas` (chart generator `ScaledChartData`). -/
structure ScaledChartData where
  coordinates : List Coordinate
  yScale : JSVal → JSVal
  xScale : JSVal → JSVal
  yMin : JSVal
  yMax : JSVal

/-- From `scalePointsToCanvas` (src/lib/r2.ts chart generator, both
variants have identical bodies): throws on an empty series; takes
`timeMin`/`timeMax` from the first/last point; scans all points for the
raw `y` extremes starting from `±Infinity`; widens them by
`yMargin = (yMax - yMin) * Y_MARGIN_RATIO || 1`; builds the two scale
closures and maps every point through them.  The unreachable
`!firstPoint || !lastPoint` guard of the source is subsumed by the
nonemptiness of the list. -/
def scalePointsToCanvas (params : ScalingParams) : Except String ScaledChartData :=
  if hp : params.points = [] then .error "Cannot scale empty points array"
  else
    let innerWidth : ℚ := params.canvasWidth - params.padding.l - params.padding.r
    let innerHeight : ℚ := params.canvasHeight - params.padding.t - params.padding.b
    let timeMin : ℚ := (params.points.head hp).t
    let timeMax : ℚ := (params.points.getLast hp).t
    let mm := params.points.foldl
      (fun (acc : JSVal × JSVal) point =>
        ((if JSVal.lt (.num point.y) acc.1 then .num point.y else acc.1),
         (if JSVal.gt (.num point.y) acc.2 then .num point.y else acc.2)))
      (JSVal.inf, JSVal.neginf)
    let yMargin := jsOr (JSVal.mul (JSVal.sub mm.2 mm.1) (.num yMarginRatio)) (.num 1)
    let yMin := JSVal.sub mm.1 yMargin
    let yMax := JSVal.add mm.2 yMargin
    let xScale : JSVal → JSVal := fun timestamp =>
      JSVal.add (.num params.padding.l)
        (JSVal.mul
          (JSVal.div (JSVal.sub timestamp (.num timeMin))
            (JSVal.sub (.num timeMax) (.num timeMin)))
          (.num innerWidth))
    let yScale : JSVal → JSVal := fun value =>
      JSVal.add (.num params.padding.t)
        (JSVal.mul
          (JSVal.sub (.num 1)
            (JSVal.div (JSVal.sub value yMin) (JSVal.sub yMax yMin)))
          (.num innerHeight))
    .ok { coordinates := params.points.map (fun p => ⟨xScale (.num p.t), yScale (.num p.y)⟩)
          yScale := yScale
          xScale := xScale
          yMin := yMin
          yMax := yMax }

/-- The coordinate list produced by the scaler, as data (used to state
evaluation results; `ScaledChartData` itself carries closures and has no
decidable equality). -/
def scaledCoordinates (params : ScalingParams) : Except String (List Coordinate) :=
  (scalePointsToCanvas params).map (fun d => d.coordinates)

/-- Left-pad a digit string with zeros up to length `f`. -/
def padZeros (s : String) (f : Nat) : String :=
  String.mk (List.replicate (f - s.length) (Char.ofNat 48)) ++ s

/-- JavaScript `Number.prototype.toFixed` on an exact rational
(ECMA-262: print the sign of the argument, then round the magnitude to
the integer `n` closest to `x * 10^f`, ties towards the larger `n`, and
print it with `f` digits after the point).  Binary rounding of the
argument is not modelled. -/
def toFixed (q : ℚ) (f : Nat) : String :=
  let x : ℚ := if q < 0 then -q else q
  let n : Nat := (⌊x * (10 : ℚ) ^ f + 1 / 2⌋).toNat
  let s : String := if q < 0 then "-" else ""
  if f = 0 then s ++ toString n
  else s ++ toString (n / 10 ^ f) ++ "." ++ padZeros (toString (n % 10 ^ f)) f

/-- From `formatPrice` (chart generator, src/lib/r2.ts part): the axis
price-label formatter.  The source literal `0.01` is the rational
`1/100`. -/
def formatPrice (value : ℚ) : String :=
  if value ≥ 1000 then "$" ++ toFixed (value / 1000) 1 ++ "K"
  else if value ≥ 1 then "$" ++ toFixed value 2
  else if value ≥ 1 / 100 then "$" ++ toFixed value 3
  else "$" ++ toFixed value 6

/-- JavaScript `Number(x.toFixed(f))`: the rational obtained by rounding
`x` to `f` decimal places (magnitude rounded half towards larger). -/
def roundToFixed (q : ℚ) (f : Nat) : ℚ :=
  let x : ℚ := if q < 0 then -q else q
  let n : ℤ := ⌊x * (10 : ℚ) ^ f + 1 / 2⌋
  (if q < 0 then -(n : ℚ) else (n : ℚ)) / (10 : ℚ) ^ f

/-- Fuel-bounded search (downwards from `e`) for the greatest exponent
`k ≤ e` with `10^k ≤ x`, for `0 < x`.  Doubles cannot be smaller than
`10^-324`, so the fuel used at call sites is never exhausted for any
value a double can take. -/
def decExponent : Nat → ℚ → ℤ → ℤ
  | 0, _, e => e
  | fuel + 1, x, e => if (10 : ℚ) ^ e ≤ x then e else decExponent fuel x (e - 1)

/-- JavaScript `Number(x.toPrecision(p))` for the magnitudes the code
feeds it (`0 < |x| < 0.01`): keep `p` significant decimal digits,
rounding half towards larger magnitude. -/
def toPrecisionSmall (q : ℚ) (p : Nat) : ℚ :=
  if q = 0 then 0
  else
    let x : ℚ := if q < 0 then -q else q
    let e : ℤ := decExponent 1200 x 0
    let scale : ℚ := (10 : ℚ) ^ (e - (p - 1 : ℤ))
    let n : ℤ := ⌊x / scale + 1 / 2⌋
    (if q < 0 then -(n : ℚ) else (n : ℚ)) * scale

namespace ChartCalculations

/-- From `formatPrice` (src/utils/chart-calculations.ts): the numeric
display-precision rule used by the Metrics Builder (distinct from the
axis-label string formatter of the same source name): `0 → 0`;
`|price| < 0.01` → 6 significant digits; otherwise → 2 decimal
places. -/
def formatPrice (price : ℚ) : ℚ :=
  if price = 0 then 0
  else if |price| < 1 / 100 then toPrecisionSmall price 6
  else roundToFixed price 2

end ChartCalculations

/-- The record returned by `generateChartMetrics` (src/types.ts
`ChartMetrics`). -/
structure ChartMetrics where
  pointsRaw : Nat
  pointsDownsampled : Nat
  isBullish : Bool
  entryPrice : ℚ
  lastPrice : ℚ
  outputBytes : Nat
  outputPath : String
  size : String
deriving DecidableEq, Repr

/-- Decimal rendering of a JavaScript number inside a template literal.
Integers render as their digits; the non-integer case (only the
device-pixel ratio in practice) is rendered as `num/den`, a deliberate
simplification of the JavaScript shortest-decimal printing, which no
claim depends on. -/
def jsNumRepr (q : ℚ) : String :=
  if q.den = 1 then toString q.num else toString q.num ++ "/" ++ toString q.den

/-- From `generateChartMetrics` (src/utils/chart-calculations.ts): the
pure Metrics Builder.  `lastPrice` is the `y` of the last raw point, `0`
for an empty raw series. -/
def generateChartMetrics (rawData downsampledData : List Point) (entryPrice : ℚ)
    (isBullish : Bool) (outputPath : String) (outputBytes : Nat)
    (width height dpr : ℚ) : ChartMetrics :=
  let lastPrice : ℚ := match rawData.getLast? with
    | some p => p.y
    | none => 0
  { pointsRaw := rawData.length
    pointsDownsampled := downsampledData.length
    isBullish := isBullish
    entryPrice := ChartCalculations.formatPrice entryPrice
    lastPrice := ChartCalculations.formatPrice lastPrice
    outputBytes := outputBytes
    outputPath := outputPath
    size := jsNumRepr width ++ "x" ++ jsNumRepr height ++ " @" ++ jsNumRepr dpr ++ "x" }

/-- The record returned by `validatePointData`. -/
structure ValidationResult where
  isValid : Bool
  errors : List String
deriving DecidableEq, Repr

/-- From `validatePointData` (src/utils/chart-calculations.ts): empty
data is invalid; fewer than 2 points, negative prices and non-increasing
timestamps each append an error.  `Number.isFinite` can never fail in
the exact-rational model, and the index/value interpolations of the
source messages are dropped (no claim inspects message text). -/
def validatePointData (points : List Point) : ValidationResult :=
  if points.length = 0 then { isValid := false, errors := ["Data is empty"] }
  else
    let lengthErrors : List String :=
      if points.length < 2 then ["Insufficient data points (minimum 2 required)"] else []
    let valueErrors : List String :=
      points.flatMap (fun p => if p.y < 0 then ["Negative price at index"] else [])
    let orderErrors : List String :=
      (points.zip points.tail).flatMap
        (fun pc => if pc.2.t ≤ pc.1.t then ["Time ordering violation at index"] else [])
    let errors := lengthErrors ++ valueErrors ++ orderErrors
    { isValid := errors.isEmpty, errors := errors }

/-- The upload collaborator result (src/lib/r2.ts `uploadToR2` return
shape): `uploadToR2` catches internally and always resolves to this
record, never throwing. -/
structure R2UploadResult where
  success : Bool
  url : Option String
  error : Option String
deriving DecidableEq, Repr

/-- The data-access collaborator result (src/types.ts
`OHLCVDataResult`). -/
structure OHLCVDataResult where
  points : List Point
  tokenAddress : String
  periodHours : ℚ
deriving DecidableEq, Repr

/-- The orchestrator result (src/types.ts `ChartGenerationResult`). -/
structure ChartGenerationResult where
  metrics : ChartMetrics
  localPath : Option String
  r2Upload : Option R2UploadResult
deriving DecidableEq, Repr

/-- The orchestrator request (src/types.ts
`ChartGenerationWithR2Config`); `hasR2Bucket` models whether the
optional `r2Bucket` collaborator handle is present. -/
structure ChartGenerationWithR2Config where
  tokenAddress : String
  periodHours : ℚ
  width : ℚ
  height : ℚ
  dpr : ℚ
  outputPath : Option String
  entryPrice : ℚ
  isBullish : Bool
  hasR2Bucket : Bool
deriving DecidableEq, Repr

/-- Result of `validateTokenForCharting` (src/utils/db.ts), an external
data-access call. -/
structure TokenValidation where
  isValid : Bool
  dataCount : Nat
deriving DecidableEq, Repr

/-- Outcomes of the external collaborators and effectful steps consumed
by one run of `generateChartWithR2`, passed explicitly so the
orchestration control flow becomes a pure function: token validation,
the OHLCV fetch (throws on failure), the canvas PNG export (byte count,
throws on failure), Sharp optimization (total: it falls back to its
input on error), the local directory-creation plus save step (throws on
failure), and the R2 upload (total by construction). -/
structure CollaboratorEnv where
  validation : TokenValidation
  fetch : Except String OHLCVDataResult
  exportBytes : Except String Nat
  optimizedBytes : Nat → Nat
  localSave : Except String Unit
  upload : R2UploadResult

/-- JavaScript truthiness of an optional string (`undefined` and `""`
are falsy). -/
def jsStrTruthy : Option String → Bool
  | none => false
  | some s => decide (s ≠ "")

/-- From `generateChartWithR2` (chart generator, src/lib/r2.ts part):
the Pipeline Orchestrator.  Steps in source order: token validation;
OHLCV fetch; empty-series check; data-integrity validation;
`downsampleWidth = Math.round(width * 2)`; downsampling; render/export
(modelled by the export outcome — drawing itself mutates only the
canvas); Sharp optimization; optional local save (when `outputPath` is
truthy); optional R2 upload (when a bucket is provided, never
throwing); metrics from `localPath || (upload success ? url ?? "memory"
: "memory")`.  The surrounding `catch` rethrows any error with the
pipeline-stage prefix. -/
def generateChartWithR2 (config : ChartGenerationWithR2Config) (env : CollaboratorEnv) :
    Except String ChartGenerationResult :=
  let run : Except String ChartGenerationResult := do
    if !env.validation.isValid then
      throw ("Token " ++ config.tokenAddress ++ " does not have sufficient data for charting")
    let ohlcvResult ← env.fetch
    if ohlcvResult.points.length = 0 then
      throw ("No OHLCV data retrieved for token " ++ config.tokenAddress)
    let dataValidation := validatePointData ohlcvResult.points
    if !dataValidation.isValid then
      throw ("Invalid OHLCV data: " ++ String.intercalate ", " dataValidation.errors)
    let downsampleWidth : Nat := (round (config.width * 2)).toNat
    let downsampledData := downsampleMinMax ohlcvResult.points downsampleWidth
    let imageBytes ← env.exportBytes
    let optimizedBytes := env.optimizedBytes imageBytes
    let localPath : Option String ←
      if jsStrTruthy config.outputPath then do
        let _ ← env.localSave
        pure config.outputPath
      else pure none
    let r2Upload : Option R2UploadResult :=
      if config.hasR2Bucket then some env.upload else none
    let metricsOutputPath : String :=
      match localPath with
      | some p =>
          if p = "" then
            match r2Upload with
            | some u => if u.success then u.url.getD "memory" else "memory"
            | none => "memory"
          else p
      | none =>
          match r2Upload with
          | some u => if u.success then u.url.getD "memory" else "memory"
          | none => "memory"
    let metrics := generateChartMetrics ohlcvResult.points downsampledData
      config.entryPrice config.isBullish metricsOutputPath optimizedBytes
      config.width config.height config.dpr
    pure { metrics := metrics, localPath := localPath, r2Upload := r2Upload }
  match run with
  | .ok v => .ok v
  | .error e => .error ("Chart generation failed: " ++ e)

/-! Helper lemmas about the JavaScript value arithmetic. -/

theorem JSVal.add_num (a b : ℚ) : JSVal.add (.num a) (.num b) = .num (a + b) := rfl

theorem JSVal.sub_num (a b : ℚ) : JSVal.sub (.num a) (.num b) = .num (a - b) := by
  simp [JSVal.sub, JSVal.add, JSVal.neg, sub_eq_add_neg]

theorem JSVal.mul_num (a b : ℚ) : JSVal.mul (.num a) (.num b) = .num (a * b) := rfl

theorem JSVal.div_num (a b : ℚ) (hb : b ≠ 0) :
    JSVal.div (.num a) (.num b) = .num (a / b) := by
  simp [JSVal.div, hb]

theorem JSVal.lt_num (a b : ℚ) : JSVal.lt (.num a) (.num b) = decide (a < b) := rfl

theorem JSVal.gt_num (a b : ℚ) : JSVal.gt (.num a) (.num b) = decide (b < a) := rfl

theorem jsOr_num (x y : ℚ) :
    jsOr (.num x) (.num y) = .num (if x = 0 then y else x) := by
  by_cases h : x = 0 <;> simp [jsOr, JSVal.truthy, h]

/-- C3: for every point series and every `targetWidth` with
`series.length ≤ 2 × targetWidth`, `downsampleMinMax` returns the input
series unchanged. -/
theorem downsample_identity_when_fits (points : List Point) (targetWidth : Nat)
    (h : points.length ≤ 2 * targetWidth) :
    downsampleMinMax points targetWidth = points := by
  rw [downsampleMinMax, if_pos (by omega)]

/-- Witness for C3 (spec Scenario A): the two-point series with
`targetWidth = 100` is returned unchanged. -/
theorem downsample_identity_when_fits_witness :
    downsampleMinMax [⟨0, 10⟩, ⟨1000, 20⟩] 100 = [⟨0, 10⟩, ⟨1000, 20⟩] :=
  downsample_identity_when_fits [⟨0, 10⟩, ⟨1000, 20⟩] 100 (by decide)

/-- C8: the axis price-label formatter uses `$` plus `value/1000` to 1
decimal and `K` for `value ≥ 1000`, 2 decimals for `1 ≤ value < 1000`,
3 decimals for `0.01 ≤ value < 1` and 6 decimals below `0.01`; in
particular `formatPrice 0.0034 = "$0.003400"` and
`formatPrice 1523.4 = "$1.5K"`. -/
theorem formatPrice_rules :
    (∀ v : ℚ, 1000 ≤ v → formatPrice v = "$" ++ toFixed (v / 1000) 1 ++ "K") ∧
    (∀ v : ℚ, 1 ≤ v → v < 1000 → formatPrice v = "$" ++ toFixed v 2) ∧
    (∀ v : ℚ, 1 / 100 ≤ v → v < 1 → formatPrice v = "$" ++ toFixed v 3) ∧
    (∀ v : ℚ, v < 1 / 100 → formatPrice v = "$" ++ toFixed v 6) ∧
    formatPrice (34 / 10000) = "$0.003400" ∧
    formatPrice (15234 / 10) = "$1.5K" := by
  refine ⟨?_, ?_, ?_, ?_, ?_, ?_⟩
  · intro v hv
    rw [formatPrice, if_pos hv]
  · intro v h1 h2
    rw [formatPrice, if_neg (by simpa using not_le.mpr h2), if_pos h1]
  · intro v h1 h2
    rw [formatPrice, if_neg (by simp; linarith), if_neg (by simpa using not_le.mpr h2),
      if_pos h1]
  · intro v h1
    rw [formatPrice, if_neg (by simp; linarith), if_neg (by simp; linarith),
      if_neg (by simpa using not_le.mpr h1)]
  · with_unfolding_all rfl
  · with_unfolding_all rfl

/-- Witness for C8: each quantified branch of `formatPrice_rules`
instantiated at a concrete price. -/
theorem formatPrice_rules_witness :
    formatPrice 2000 = "$" ++ toFixed (2000 / 1000) 1 ++ "K" ∧
    formatPrice 500 = "$" ++ toFixed 500 2 ∧
    formatPrice (1 / 2) = "$" ++ toFixed (1 / 2) 3 ∧
    formatPrice (1 / 1000) = "$" ++ toFixed (1 / 1000) 6 :=
  ⟨formatPrice_rules.1 2000 (by norm_num),
   formatPrice_rules.2.1 500 (by norm_num) (by norm_num),
   formatPrice_rules.2.2.1 (1 / 2) (by norm_num) (by norm_num),
   formatPrice_rules.2.2.2.1 (1 / 1000) (by norm_num)⟩

/-- C1 (code bug evidence): on a single-point series (so
`timeMax = timeMin`) the scaler does NOT fall back to
`x = padding.l`: the unguarded division `0/0` makes every
x-coordinate `NaN` (here with canvas 800×360 and padding
l=48, r=96, t=29, b=54; the y-coordinate is the finite 167.5). -/
theorem scaler_identicalTimestamps_x_isNaN :
    scaledCoordinates ⟨[⟨1000, 5⟩], 800, 360, ⟨48, 96, 29, 54⟩⟩ =
      .ok [⟨JSVal.nan, .num (335 / 2)⟩] := by
  with_unfolding_all rfl

/-- C2 (code bug evidence): with 7 points and `targetWidth = 3` the
bucketing branch runs with `binSize = 3`; the last bucket holds the
single point `⟨7, 70⟩`, whose min and max coincide, and
`extractMinMaxFromBin` emits it TWICE (the `minPoint.t < maxPoint.t`
test is false for the point against itself, so the `[maxPoint,
minPoint]` arm returns the same point twice). -/
theorem downsample_singletonBucket_point_duplicated :
    downsampleMinMax [⟨1, 10⟩, ⟨2, 20⟩, ⟨3, 30⟩, ⟨4, 40⟩, ⟨5, 50⟩, ⟨6, 60⟩, ⟨7, 70⟩] 3 =
      [⟨1, 10⟩, ⟨3, 30⟩, ⟨4, 40⟩, ⟨6, 60⟩, ⟨7, 70⟩, ⟨7, 70⟩] := by
  rw [downsampleMinMax, if_neg (by decide)]
  rw [processBins, processBins, processBins, processBins]
  simp [extractMinMaxFromBin]
  decide

/-! Helper lemmas about the running-minimum and running-maximum folds of
the scaler and of the bin extraction. -/

theorem foldlMin_le_init (l : List Point) (a : ℚ) :
    l.foldl (fun m q => min m q.y) a ≤ a := by
  induction l generalizing a with
  | nil => simp
  | cons p l ih => simpa using (ih (min a p.y)).trans (min_le_left _ _)

theorem foldlMax_init_le (l : List Point) (a : ℚ) :
    a ≤ l.foldl (fun m q => max m q.y) a := by
  induction l generalizing a with
  | nil => simp
  | cons p l ih => simpa using le_trans (le_max_left a p.y) (ih (max a p.y))

theorem foldlMin_le_of_mem (l : List Point) (a : ℚ) (p : Point) (hp : p ∈ l) :
    l.foldl (fun m q => min m q.y) a ≤ p.y := by
  induction l generalizing a with
  | nil => simp at hp
  | cons r l ih =>
    rcases List.mem_cons.mp hp with h | h
    · subst h
      exact (foldlMin_le_init l (min a p.y)).trans (min_le_right _ _)
    · exact ih (min a r.y) h

theorem foldlMax_ge_of_mem (l : List Point) (a : ℚ) (p : Point) (hp : p ∈ l) :
    p.y ≤ l.foldl (fun m q => max m q.y) a := by
  induction l generalizing a with
  | nil => simp at hp
  | cons r l ih =>
    rcases List.mem_cons.mp hp with h | h
    · subst h
      exact le_trans (le_max_right a p.y) (foldlMax_init_le l (max a p.y))
    · exact ih (max a r.y) h

theorem foldlMin_cases (l : List Point) (a : ℚ) :
    l.foldl (fun m q => min m q.y) a = a ∨
      ∃ p ∈ l, l.foldl (fun m q => min m q.y) a = p.y := by
  induction l generalizing a with
  | nil => exact Or.inl rfl
  | cons r l ih =>
    rcases ih (min a r.y) with h | ⟨p, hp, h⟩
    · rcases min_cases a r.y with ⟨he, _⟩ | ⟨he, _⟩
      · exact Or.inl (by simpa [he] using h)
      · exact Or.inr ⟨r, List.mem_cons_self r l, by simpa [he] using h⟩
    · exact Or.inr ⟨p, List.mem_cons_of_mem r hp, by simpa using h⟩

theorem foldlMax_cases (l : List Point) (a : ℚ) :
    l.foldl (fun m q => max m q.y) a = a ∨
      ∃ p ∈ l, l.foldl (fun m q => max m q.y) a = p.y := by
  induction l generalizing a with
  | nil => exact Or.inl rfl
  | cons r l ih =>
    rcases ih (max a r.y) with h | ⟨p, hp, h⟩
    · rcases max_cases a r.y with ⟨he, _⟩ | ⟨he, _⟩
      · exact Or.inl (by simpa [he] using h)
      · exact Or.inr ⟨r, List.mem_cons_self r l, by simpa [he] using h⟩
    · exact Or.inr ⟨p, List.mem_cons_of_mem r hp, by simpa using h⟩

theorem jsFoldMinMax_num (l : List Point) (a b : ℚ) :
    l.foldl (fun (acc : JSVal × JSVal) point =>
        ((if JSVal.lt (.num point.y) acc.1 then .num point.y else acc.1),
         (if JSVal.gt (.num point.y) acc.2 then .num point.y else acc.2)))
      (.num a, .num b)
    = (.num (l.foldl (fun m q => min m q.y) a),
       .num (l.foldl (fun m q => max m q.y) b)) := by
  induction l generalizing a b with
  | nil => rfl
  | cons p l ih =>
    have hmin : (if JSVal.lt (.num p.y) (.num a) then JSVal.num p.y else .num a) =
        .num (min a p.y) := by
      rcases le_or_lt a p.y with h | h
      · simp [JSVal.lt_num, not_lt.mpr h, min_eq_left h]
      · simp [JSVal.lt_num, h, min_eq_right h.le]
    have hmax : (if JSVal.gt (.num p.y) (.num b) then JSVal.num p.y else .num b) =
        .num (max b p.y) := by
      rcases le_or_lt p.y b with h | h
      · simp [JSVal.gt_num, not_lt.mpr h, max_eq_left h]
      · simp [JSVal.gt_num, h, max_eq_right h.le]
    simp only [List.foldl_cons, hmin, hmax]
    exact ih (min a p.y) (max b p.y)

theorem jsFoldMinMax_cons (p : Point) (l : List Point) :
    (p :: l).foldl (fun (acc : JSVal × JSVal) point =>
        ((if JSVal.lt (.num point.y) acc.1 then .num point.y else acc.1),
         (if JSVal.gt (.num point.y) acc.2 then .num point.y else acc.2)))
      (JSVal.inf, JSVal.neginf)
    = (.num (l.foldl (fun m q => min m q.y) p.y),
       .num (l.foldl (fun m q => max m q.y) p.y)) := by
  have h1 : JSVal.lt (.num p.y) JSVal.inf = true := rfl
  have h2 : JSVal.gt (.num p.y) JSVal.neginf = true := rfl
  simp only [List.foldl_cons, h1, h2, if_true]
  exact jsFoldMinMax_num l p.y p.y

theorem foldlMin_eq (l : List Point) (a lo : ℚ)
    (h1 : lo ≤ a) (h2 : ∀ q ∈ l, lo ≤ q.y) (h3 : a = lo ∨ ∃ q ∈ l, q.y = lo) :
    l.foldl (fun m q => min m q.y) a = lo := by
  apply le_antisymm
  · rcases h3 with h | ⟨q, hq, hqy⟩
    · rw [← h]; exact foldlMin_le_init l a
    · rw [← hqy]; exact foldlMin_le_of_mem l a q hq
  · rcases foldlMin_cases l a with h | ⟨q, hq, h⟩
    · rw [h]; exact h1
    · rw [h]; exact h2 q hq

theorem foldlMax_eq (l : List Point) (a hi : ℚ)
    (h1 : a ≤ hi) (h2 : ∀ q ∈ l, q.y ≤ hi) (h3 : a = hi ∨ ∃ q ∈ l, q.y = hi) :
    l.foldl (fun m q => max m q.y) a = hi := by
  apply le_antisymm
  · rcases foldlMax_cases l a with h | ⟨q, hq, h⟩
    · rw [h]; exact h1
    · rw [h]; exact h2 q hq
  · rcases h3 with h | ⟨q, hq, hqy⟩
    · rw [← h]; exact foldlMax_init_le l a
    · rw [← hqy]; exact foldlMax_ge_of_mem l a q hq

/-- C7: on any non-empty series with raw value bounds `lo`/`hi`
(characterized as attained lower/upper bounds of the `y` values), the
scaler widens the bounds symmetrically to `lo - margin` and
`hi + margin`, where `margin = (hi - lo) × marginRatio` falls back to
`1` exactly when that product is zero (flat series). -/
theorem scaler_value_margin (p : Point) (l : List Point) (cw ch : ℚ) (pad : ChartPadding)
    (lo hi : ℚ)
    (hlo1 : ∀ q ∈ p :: l, lo ≤ q.y) (hlo2 : ∃ q ∈ p :: l, q.y = lo)
    (hhi1 : ∀ q ∈ p :: l, q.y ≤ hi) (hhi2 : ∃ q ∈ p :: l, q.y = hi) :
    ∃ d, scalePointsToCanvas ⟨p :: l, cw, ch, pad⟩ = .ok d ∧
      d.yMin = .num (lo - (if (hi - lo) * yMarginRatio = 0 then 1
                           else (hi - lo) * yMarginRatio)) ∧
      d.yMax = .num (hi + (if (hi - lo) * yMarginRatio = 0 then 1
                           else (hi - lo) * yMarginRatio)) := by
  have hlo : l.foldl (fun m q => min m q.y) p.y = lo := by
    apply foldlMin_eq
    · exact hlo1 p (List.mem_cons_self p l)
    · intro q hq; exact hlo1 q (List.mem_cons_of_mem p hq)
    · rcases hlo2 with ⟨q, hq, hqy⟩
      rcases List.mem_cons.mp hq with h | h
      · exact Or.inl (h ▸ hqy)
      · exact Or.inr ⟨q, h, hqy⟩
  have hhi : l.foldl (fun m q => max m q.y) p.y = hi := by
    apply foldlMax_eq
    · exact hhi1 p (List.mem_cons_self p l)
    · intro q hq; exact hhi1 q (List.mem_cons_of_mem p hq)
    · rcases hhi2 with ⟨q, hq, hqy⟩
      rcases List.mem_cons.mp hq with h | h
      · exact Or.inl (h ▸ hqy)
      · exact Or.inr ⟨q, h, hqy⟩
  rw [scalePointsToCanvas, dif_neg (List.cons_ne_nil p l)]
  refine ⟨_, rfl, ?_, ?_⟩
  · simp only [jsFoldMinMax_cons, hlo, hhi, JSVal.sub_num, JSVal.mul_num, jsOr_num]
  · simp only [jsFoldMinMax_cons, hlo, hhi, JSVal.sub_num, JSVal.mul_num, jsOr_num,
      JSVal.add_num]

/-- Witness for C7 (spec Scenario D): a flat two-point series constant
at `y = 5` gets the fallback margin `1`, so the adjusted bounds are `4`
and `6`. -/
theorem scaler_value_margin_witness :
    ∃ d, scalePointsToCanvas ⟨[⟨0, 5⟩, ⟨1000, 5⟩], 800, 360, ⟨48, 96, 29, 54⟩⟩ = .ok d ∧
      d.yMin = .num 4 ∧ d.yMax = .num 6 := by
  have h := scaler_value_margin ⟨0, 5⟩ [⟨1000, 5⟩] 800 360 ⟨48, 96, 29, 54⟩ 5 5
    (by intro q hq; fin_cases hq <;> norm_num)
    ⟨⟨0, 5⟩, List.mem_cons_self _ _, rfl⟩
    (by intro q hq; fin_cases hq <;> norm_num)
    ⟨⟨0, 5⟩, List.mem_cons_self _ _, rfl⟩
  norm_num [yMarginRatio] at h
  exact h

/-- C6: on a series of at least two points whose last timestamp exceeds
the first, the x mapping sends `timeMin` exactly to `padding.l` and
`timeMax` exactly to `canvasWidth - padding.r` (exact rational
arithmetic; the floating-point tolerance of the claim is not needed). -/
theorem xScale_endpoints (p : Point) (l : List Point) (hl : l ≠ []) (cw ch : ℚ)
    (pad : ChartPadding) (ht : p.t < (l.getLast hl).t) :
    ∃ d, scalePointsToCanvas ⟨p :: l, cw, ch, pad⟩ = .ok d ∧
      d.xScale (.num p.t) = .num pad.l ∧
      d.xScale (.num (l.getLast hl).t) = .num (cw - pad.r) := by
  have hne : (l.getLast hl).t - p.t ≠ 0 := sub_ne_zero.mpr (ne_of_gt ht)
  rw [scalePointsToCanvas, dif_neg (List.cons_ne_nil p l)]
  refine ⟨_, rfl, ?_, ?_⟩
  · simp only [List.head_cons, List.getLast_cons hl, JSVal.sub_num,
      JSVal.div_num _ _ hne, JSVal.mul_num, JSVal.add_num]
    norm_num
  · simp only [List.head_cons, List.getLast_cons hl, JSVal.sub_num,
      JSVal.div_num _ _ hne, JSVal.mul_num, JSVal.add_num]
    rw [div_self hne]
    norm_num
    ring

/-- Witness for C6: the series `[(0,10),(1000,20)]` on an 800-wide
canvas with padding l=48, r=96 maps `t = 0` to `x = 48` and `t = 1000`
to `x = 800 - 96`. -/
theorem xScale_endpoints_witness :
    ∃ d, scalePointsToCanvas ⟨[⟨0, 10⟩, ⟨1000, 20⟩], 800, 360, ⟨48, 96, 29, 54⟩⟩ = .ok d ∧
      d.xScale (.num 0) = .num 48 ∧ d.xScale (.num 1000) = .num (800 - 96) := by
  have h := xScale_endpoints ⟨0, 10⟩ [⟨1000, 20⟩] (by simp) 800 360 ⟨48, 96, 29, 54⟩
    (by norm_num [List.getLast_singleton])
  simpa [List.getLast_singleton] using h

/-! Helper lemmas: a strictly time-increasing series is bounded by its
first and last timestamps. -/

theorem t_le_getLast (l : List Point) :
    ∀ (hl : l ≠ []), l.Pairwise (fun a b => a.t < b.t) →
      ∀ q ∈ l, q.t ≤ (l.getLast hl).t := by
  induction l with
  | nil => intro hl; exact absurd rfl hl
  | cons a l ih =>
    intro _ hmono q hq
    by_cases hl : l = []
    · subst hl
      rcases List.mem_singleton.mp hq with rfl
      simp
    · rw [List.getLast_cons hl]
      rcases List.mem_cons.mp hq with h | h
      · subst h
        exact ((List.pairwise_cons.mp hmono).1 (l.getLast hl) (List.getLast_mem hl)).le
      · exact ih hl (List.pairwise_cons.mp hmono).2 q h

theorem head_t_le_of_mem (p : Point) (l : List Point)
    (hmono : (p :: l).Pairwise (fun a b => a.t < b.t)) (q : Point) (hq : q ∈ p :: l) :
    p.t ≤ q.t := by
  rcases List.mem_cons.mp hq with h | h
  · subst h; exact le_refl _
  · exact ((List.pairwise_cons.mp hmono).1 q h).le

/-- C10: for any series of at least two points with strictly increasing
timestamps on a canvas with positive inner width and height, every
scaled coordinate is finite and lies inside the inner plot rectangle:
`padding.l ≤ x ≤ canvasWidth - padding.r` and, strictly (the applied
y-margin is always positive), `padding.t < y < canvasHeight -
padding.b`. -/
theorem coordinates_within_inner_rect (p : Point) (l : List Point) (hl : l ≠ [])
    (cw ch : ℚ) (pad : ChartPadding)
    (hmono : (p :: l).Pairwise (fun a b => a.t < b.t))
    (hW : 0 < cw - pad.l - pad.r) (hH : 0 < ch - pad.t - pad.b) :
    ∃ d, scalePointsToCanvas ⟨p :: l, cw, ch, pad⟩ = .ok d ∧
      ∀ c ∈ d.coordinates, ∃ qx qy, c.x = .num qx ∧ c.y = .num qy ∧
        pad.l ≤ qx ∧ qx ≤ cw - pad.r ∧ pad.t < qy ∧ qy < ch - pad.b := by
  have htlt : p.t < (l.getLast hl).t :=
    (List.pairwise_cons.mp hmono).1 _ (List.getLast_mem hl)
  have hlo_le : ∀ q ∈ p :: l, l.foldl (fun m q => min m q.y) p.y ≤ q.y := by
    intro q hq
    rcases List.mem_cons.mp hq with h | h
    · subst h; exact foldlMin_le_init l q.y
    · exact foldlMin_le_of_mem l p.y q h
  have hhi_ge : ∀ q ∈ p :: l, q.y ≤ l.foldl (fun m q => max m q.y) p.y := by
    intro q hq
    rcases List.mem_cons.mp hq with h | h
    · subst h; exact foldlMax_init_le l q.y
    · exact foldlMax_ge_of_mem l p.y q h
  rw [scalePointsToCanvas, dif_neg (List.cons_ne_nil p l)]
  refine ⟨_, rfl, ?_⟩
  simp only [jsFoldMinMax_cons, List.head_cons, List.getLast_cons hl,
    JSVal.sub_num, JSVal.mul_num, jsOr_num, JSVal.add_num]
  set lo := l.foldl (fun m q => min m q.y) p.y with hlodef
  set hi := l.foldl (fun m q => max m q.y) p.y with hhidef
  set tmax := (l.getLast hl).t with htmaxdef
  set m := if (hi - lo) * yMarginRatio = 0 then 1 else (hi - lo) * yMarginRatio with hmdef
  have hlohi : lo ≤ hi :=
    le_trans (hlo_le p (List.mem_cons_self p l)) (hhi_ge p (List.mem_cons_self p l))
  have hm : 0 < m := by
    rw [hmdef]
    split_ifs with h0
    · norm_num
    · exact lt_of_le_of_ne (mul_nonneg (by linarith) (by norm_num [yMarginRatio])) (Ne.symm h0)
  have hdent : tmax - p.t ≠ 0 := sub_ne_zero.mpr (ne_of_gt htlt)
  have hDpos : 0 < (hi + m) - (lo - m) := by linarith
  have hdeny : (hi + m) - (lo - m) ≠ 0 := ne_of_gt hDpos
  intro c hc
  simp only [List.mem_map] at hc
  obtain ⟨q, hq, rfl⟩ := hc
  have hq1 : p.t ≤ q.t := head_t_le_of_mem p l hmono q hq
  have hq2 : q.t ≤ tmax := by
    have := t_le_getLast (p :: l) (List.cons_ne_nil p l) hmono q hq
    rwa [List.getLast_cons hl] at this
  have hqy1 : lo ≤ q.y := hlo_le q hq
  have hqy2 : q.y ≤ hi := hhi_ge q hq
  refine ⟨pad.l + (q.t - p.t) / (tmax - p.t) * (cw - pad.l - pad.r),
    pad.t + (1 - (q.y - (lo - m)) / ((hi + m) - (lo - m))) * (ch - pad.t - pad.b),
    ?_, ?_, ?_, ?_, ?_, ?_⟩
  · simp only [JSVal.div_num _ _ hdent, JSVal.mul_num, JSVal.add_num]
  · simp only [JSVal.div_num _ _ hdeny, JSVal.sub_num, JSVal.mul_num, JSVal.add_num]
  · have h1 : 0 ≤ (q.t - p.t) / (tmax - p.t) :=
      div_nonneg (by linarith) (by linarith)
    nlinarith [mul_nonneg h1 hW.le]
  · have h1 : (q.t - p.t) / (tmax - p.t) ≤ 1 :=
      (div_le_one (by linarith)).mpr (by linarith)
    nlinarith [mul_le_mul_of_nonneg_right h1 hW.le]
  · have h1 : (q.y - (lo - m)) / ((hi + m) - (lo - m)) < 1 :=
      (div_lt_one hDpos).mpr (by linarith)
    nlinarith [mul_pos (by linarith : (0:ℚ) < 1 - (q.y - (lo - m)) / ((hi + m) - (lo - m))) hH]
  · have h1 : 0 < (q.y - (lo - m)) / ((hi + m) - (lo - m)) :=
      div_pos (by linarith) hDpos
    nlinarith [mul_lt_mul_of_pos_right
      (by linarith : 1 - (q.y - (lo - m)) / ((hi + m) - (lo - m)) < 1) hH]

/-- Witness for C10: the series `[(0,1),(1000,2)]` on an 800×360 canvas
with padding l=48, r=96, t=29, b=54 has every coordinate inside the
inner rectangle. -/
theorem coordinates_within_inner_rect_witness :
    ∃ d, scalePointsToCanvas ⟨[⟨0, 1⟩, ⟨1000, 2⟩], 800, 360, ⟨48, 96, 29, 54⟩⟩ = .ok d ∧
      ∀ c ∈ d.coordinates, ∃ qx qy, c.x = .num qx ∧ c.y = .num qy ∧
        48 ≤ qx ∧ qx ≤ 800 - 96 ∧ 29 < qy ∧ qy < 360 - 54 :=
  coordinates_within_inner_rect ⟨0, 1⟩ [⟨1000, 2⟩] (by simp) 800 360 ⟨48, 96, 29, 54⟩
    (by norm_num [List.pairwise_cons]) (by norm_num) (by norm_num)

theorem pairSelFold_eq (l : List Point) (a b : Point) :
    l.foldl (fun (acc : Point × Point) point =>
        ((if point.y < acc.1.y then point else acc.1),
         (if point.y > acc.2.y then point else acc.2))) (a, b)
    = (l.foldl (fun m point => if point.y < m.y then point else m) a,
       l.foldl (fun m point => if point.y > m.y then point else m) b) := by
  induction l generalizing a b with
  | nil => rfl
  | cons p l ih => simp only [List.foldl_cons]; exact ih _ _

theorem selMinFold_y (l : List Point) (a : Point) :
    (l.foldl (fun m point => if point.y < m.y then point else m) a).y
      = l.foldl (fun m q => min m q.y) a.y := by
  induction l generalizing a with
  | nil => rfl
  | cons p l ih =>
    simp only [List.foldl_cons]
    rw [ih]
    congr 1
    split_ifs with h
    · exact (min_eq_right h.le).symm
    · exact (min_eq_left (not_lt.mp h)).symm

theorem selMaxFold_y (l : List Point) (a : Point) :
    (l.foldl (fun m point => if point.y > m.y then point else m) a).y
      = l.foldl (fun m q => max m q.y) a.y := by
  induction l generalizing a with
  | nil => rfl
  | cons p l ih =>
    simp only [List.foldl_cons]
    rw [ih]
    congr 1
    split_ifs with h
    · exact (max_eq_right h.le).symm
    · exact (max_eq_left (not_lt.mp h)).symm

theorem selMinFold_mem (l : List Point) (a : Point) :
    l.foldl (fun m point => if point.y < m.y then point else m) a = a ∨
      l.foldl (fun m point => if point.y < m.y then point else m) a ∈ l := by
  induction l generalizing a with
  | nil => exact Or.inl rfl
  | cons p l ih =>
    simp only [List.foldl_cons]
    split_ifs with h
    · rcases ih p with he | hm
      · refine Or.inr ?_
        rw [he]
        exact List.mem_cons_self p l
      · exact Or.inr (List.mem_cons_of_mem p hm)
    · rcases ih a with he | hm
      · exact Or.inl he
      · exact Or.inr (List.mem_cons_of_mem p hm)

theorem selMaxFold_mem (l : List Point) (a : Point) :
    l.foldl (fun m point => if point.y > m.y then point else m) a = a ∨
      l.foldl (fun m point => if point.y > m.y then point else m) a ∈ l := by
  induction l generalizing a with
  | nil => exact Or.inl rfl
  | cons p l ih =>
    simp only [List.foldl_cons]
    split_ifs with h
    · rcases ih p with he | hm
      · refine Or.inr ?_
        rw [he]
        exact List.mem_cons_self p l
      · exact Or.inr (List.mem_cons_of_mem p hm)
    · rcases ih a with he | hm
      · exact Or.inl he
      · exact Or.inr (List.mem_cons_of_mem p hm)

theorem extractMinMaxFromBin_spec (bin : List Point) (hb : bin ≠ []) :
    ∃ pair, extractMinMaxFromBin bin = some pair ∧ pair.length = 2 ∧
      (∀ x ∈ pair, x ∈ bin) ∧
      (∃ x ∈ pair, ∀ q ∈ bin, x.y ≤ q.y) ∧
      (∃ x ∈ pair, ∀ q ∈ bin, q.y ≤ x.y) := by
  obtain ⟨p0, rest, rfl⟩ := List.exists_cons_of_ne_nil hb
  rw [extractMinMaxFromBin]
  simp only [pairSelFold_eq]
  set mn := (p0 :: rest).foldl (fun m point => if point.y < m.y then point else m) p0
    with hmn
  set mx := (p0 :: rest).foldl (fun m point => if point.y > m.y then point else m) p0
    with hmx
  have hmn_mem : mn ∈ p0 :: rest := by
    rcases selMinFold_mem (p0 :: rest) p0 with he | hm
    · rw [hmn, he]; exact List.mem_cons_self p0 rest
    · exact hm
  have hmx_mem : mx ∈ p0 :: rest := by
    rcases selMaxFold_mem (p0 :: rest) p0 with he | hm
    · rw [hmx, he]; exact List.mem_cons_self p0 rest
    · exact hm
  have hmn_le : ∀ q ∈ p0 :: rest, mn.y ≤ q.y := by
    intro q hq
    rw [hmn, selMinFold_y]
    exact foldlMin_le_of_mem (p0 :: rest) p0.y q hq
  have hmx_ge : ∀ q ∈ p0 :: rest, q.y ≤ mx.y := by
    intro q hq
    rw [hmx, selMaxFold_y]
    exact foldlMax_ge_of_mem (p0 :: rest) p0.y q hq
  split_ifs with hts
  · exact ⟨[mn, mx], rfl, rfl,
      (by intro x hx; rcases List.mem_cons.mp hx with h | h
          · exact h ▸ hmn_mem
          · rw [List.mem_singleton.mp h]; exact hmx_mem),
      ⟨mn, List.mem_cons_self _ _, hmn_le⟩,
      ⟨mx, List.mem_cons_of_mem _ (List.mem_singleton.mpr rfl), hmx_ge⟩⟩
  · exact ⟨[mx, mn], rfl, rfl,
      (by intro x hx; rcases List.mem_cons.mp hx with h | h
          · exact h ▸ hmx_mem
          · rw [List.mem_singleton.mp h]; exact hmn_mem),
      ⟨mn, List.mem_cons_of_mem _ (List.mem_singleton.mpr rfl), hmn_le⟩,
      ⟨mx, List.mem_cons_self _ _, hmx_ge⟩⟩

theorem processBins_subset (points : List Point) (binSize : Nat) :
    ∀ x ∈ processBins points binSize, x ∈ points := by
  induction points, binSize using processBins.induct with
  | case1 points binSize h =>
    rw [processBins, dif_pos h]
    intro x hx
    simp at hx
  | case2 points binSize h ih =>
    rw [processBins, dif_neg h]
    intro x hx
    rcases List.mem_append.mp hx with hx | hx
    · have hbne : points.take binSize ≠ [] := by
        intro hnil
        rcases List.take_eq_nil_iff.mp hnil with h0 | h0
        · exact h (Or.inl h0)
        · exact h (Or.inr h0)
      obtain ⟨pair, hpair, _, hsub, _, _⟩ := extractMinMaxFromBin_spec _ hbne
      rw [hpair] at hx
      exact List.take_subset _ _ (hsub x hx)
    · exact List.drop_subset _ _ (ih x hx)

theorem processBins_length (points : List Point) (binSize : Nat) :
    binSize ≠ 0 → points ≠ [] →
    (processBins points binSize).length =
      2 * ((points.length + binSize - 1) / binSize) := by
  induction points, binSize using processBins.induct with
  | case1 points binSize h =>
    intro h1 h2
    rcases h with h | h
    · exact absurd h h1
    · exact absurd h h2
  | case2 points binSize h ih =>
    intro h1 h2
    rw [processBins, dif_neg h]
    have hbne : points.take binSize ≠ [] := by
      intro hnil
      rcases List.take_eq_nil_iff.mp hnil with h0 | h0
      · exact h (Or.inl h0)
      · exact h (Or.inr h0)
    obtain ⟨pair, hpair, hlen, _, _, _⟩ := extractMinMaxFromBin_spec _ hbne
    rw [hpair]
    have hnpos : 1 ≤ points.length := List.length_pos.mpr h2
    have hbpos : 0 < binSize := Nat.pos_of_ne_zero h1
    by_cases hd : points.drop binSize = []
    · have hrec : processBins (points.drop binSize) binSize = [] := by
        rw [processBins, dif_pos (Or.inr hd)]
      have hle : points.length ≤ binSize := by
        have := List.drop_eq_nil_iff.mp hd
        omega
      rw [List.length_append, hrec, hlen]
      have hq : (points.length + binSize - 1) / binSize = 1 := by
        apply Nat.div_eq_of_lt_le <;> omega
      rw [hq]
      simp
    · have hgt : binSize < points.length := by
        have := List.drop_eq_nil_iff.not.mp hd
        omega
      have hrec := ih h1 hd
      rw [List.length_append, hlen, hrec, List.length_drop]
      have hsplit : points.length + binSize - 1 =
          (points.length - binSize + binSize - 1) + binSize := by omega
      rw [hsplit, Nat.add_div_right _ hbpos]
      omega

theorem processBins_attains_min (points : List Point) (binSize : Nat) :
    binSize ≠ 0 → points ≠ [] →
    ∃ x ∈ processBins points binSize, ∀ q ∈ points, x.y ≤ q.y := by
  induction points, binSize using processBins.induct with
  | case1 points binSize h =>
    intro h1 h2
    rcases h with h | h
    · exact absurd h h1
    · exact absurd h h2
  | case2 points binSize h ih =>
    intro h1 h2
    rw [processBins, dif_neg h]
    have hbne : points.take binSize ≠ [] := by
      intro hnil
      rcases List.take_eq_nil_iff.mp hnil with h0 | h0
      · exact h (Or.inl h0)
      · exact h (Or.inr h0)
    obtain ⟨pair, hpair, _, _, ⟨x1, hx1mem, hx1min⟩, _⟩ := extractMinMaxFromBin_spec _ hbne
    rw [hpair]
    by_cases hd : points.drop binSize = []
    · refine ⟨x1, List.mem_append_left _ hx1mem, ?_⟩
      intro q hq
      apply hx1min
      have : points.take binSize ++ points.drop binSize = points :=
        List.take_append_drop binSize points
      rw [hd, List.append_nil] at this
      rwa [this]
    · obtain ⟨x2, hx2mem, hx2min⟩ := ih h1 hd
      have hmem : ∀ q ∈ points, q ∈ points.take binSize ∨ q ∈ points.drop binSize := by
        intro q hq
        rw [← List.take_append_drop binSize points] at hq
        exact List.mem_append.mp hq
      rcases le_total x1.y x2.y with hcmp | hcmp
      · refine ⟨x1, List.mem_append_left _ hx1mem, ?_⟩
        intro q hq
        rcases hmem q hq with hq | hq
        · exact hx1min q hq
        · exact le_trans hcmp (hx2min q hq)
      · refine ⟨x2, List.mem_append_right _ hx2mem, ?_⟩
        intro q hq
        rcases hmem q hq with hq | hq
        · exact le_trans hcmp (hx1min q hq)
        · exact hx2min q hq

theorem processBins_attains_max (points : List Point) (binSize : Nat) :
    binSize ≠ 0 → points ≠ [] →
    ∃ x ∈ processBins points binSize, ∀ q ∈ points, q.y ≤ x.y := by
  induction points, binSize using processBins.induct with
  | case1 points binSize h =>
    intro h1 h2
    rcases h with h | h
    · exact absurd h h1
    · exact absurd h h2
  | case2 points binSize h ih =>
    intro h1 h2
    rw [processBins, dif_neg h]
    have hbne : points.take binSize ≠ [] := by
      intro hnil
      rcases List.take_eq_nil_iff.mp hnil with h0 | h0
      · exact h (Or.inl h0)
      · exact h (Or.inr h0)
    obtain ⟨pair, hpair, _, _, _, ⟨x1, hx1mem, hx1max⟩⟩ := extractMinMaxFromBin_spec _ hbne
    rw [hpair]
    by_cases hd : points.drop binSize = []
    · refine ⟨x1, List.mem_append_left _ hx1mem, ?_⟩
      intro q hq
      apply hx1max
      have : points.take binSize ++ points.drop binSize = points :=
        List.take_append_drop binSize points
      rw [hd, List.append_nil] at this
      rwa [this]
    · obtain ⟨x2, hx2mem, hx2max⟩ := ih h1 hd
      have hmem : ∀ q ∈ points, q ∈ points.take binSize ∨ q ∈ points.drop binSize := by
        intro q hq
        rw [← List.take_append_drop binSize points] at hq
        exact List.mem_append.mp hq
      rcases le_total x1.y x2.y with hcmp | hcmp
      · refine ⟨x2, List.mem_append_right _ hx2mem, ?_⟩
        intro q hq
        rcases hmem q hq with hq | hq
        · exact le_trans (hx1max q hq) hcmp
        · exact hx2max q hq
      · refine ⟨x1, List.mem_append_left _ hx1mem, ?_⟩
        intro q hq
        rcases hmem q hq with hq | hq
        · exact hx1max q hq
        · exact le_trans (hx2max q hq) hcmp

theorem ceilDiv_le_of_mul (n b t : Nat) (hb : 0 < b) (hn : n ≤ b * t) :
    (n + b - 1) / b ≤ t := by
  have hlt : (n + b - 1) / b < t + 1 := by
    rw [Nat.div_lt_iff_lt_mul hb]
    have : (t + 1) * b = t * b + b := by ring
    rw [this]
    have hbt : b * t = t * b := Nat.mul_comm b t
    omega
  omega

theorem ceilDiv_mul_ge (n t : Nat) (ht : 0 < t) : n ≤ ((n + t - 1) / t) * t := by
  have hdm := Nat.div_add_mod (n + t - 1) t
  have hmlt : (n + t - 1) % t < t := Nat.mod_lt _ ht
  have hcomm : ((n + t - 1) / t) * t = t * ((n + t - 1) / t) := Nat.mul_comm _ _
  omega

theorem ceilDiv_pos (n t : Nat) (hn : 0 < n) (ht : 0 < t) : 0 < (n + t - 1) / t := by
  have h := (Nat.le_div_iff_mul_le ht).mpr (show 1 * t ≤ n + t - 1 by omega)
  omega

/-- C4: for every non-empty series and `targetWidth ≥ 1` the
downsampler output is non-empty and never longer than the input, and
when the bucketing branch runs (`2 × targetWidth < length`) the output
length equals `2 × numberOfBuckets` (with `numberOfBuckets =
⌈length / binSize⌉`, `binSize = ⌈length / targetWidth⌉`) and is hence
at most `2 × targetWidth`. -/
theorem downsample_length_bounds (points : List Point) (targetWidth : Nat)
    (hne : points ≠ []) (ht : 1 ≤ targetWidth) :
    downsampleMinMax points targetWidth ≠ [] ∧
    (downsampleMinMax points targetWidth).length ≤ points.length ∧
    (2 * targetWidth < points.length →
      (downsampleMinMax points targetWidth).length =
        2 * ((points.length +
              ((points.length + targetWidth - 1) / targetWidth) - 1) /
             ((points.length + targetWidth - 1) / targetWidth)) ∧
      (downsampleMinMax points targetWidth).length ≤ 2 * targetWidth) := by
  have hnpos : 0 < points.length := List.length_pos.mpr hne
  rw [downsampleMinMax]
  by_cases hfit : points.length ≤ targetWidth * 2
  · rw [if_pos hfit]
    exact ⟨hne, le_refl _, fun hlt => absurd hfit (by omega)⟩
  · rw [if_neg hfit]
    set b := (points.length + targetWidth - 1) / targetWidth with hb
    have hbpos : 0 < b := ceilDiv_pos points.length targetWidth hnpos (by omega)
    have hblen := processBins_length points b (by omega) hne
    have hnb : points.length ≤ b * targetWidth := by
      have h := ceilDiv_mul_ge points.length targetWidth (by omega)
      rw [← hb] at h
      exact h
    have hbuckets : (points.length + b - 1) / b ≤ targetWidth :=
      ceilDiv_le_of_mul points.length b targetWidth hbpos (by omega)
    have hbucketsPos : 0 < (points.length + b - 1) / b :=
      ceilDiv_pos points.length b hnpos hbpos
    refine ⟨?_, ?_, fun _ => ⟨hblen, by omega⟩⟩
    · intro hnil
      rw [hnil] at hblen
      simp at hblen
      omega
    · omega

/-- C5: for every non-empty series and `targetWidth ≥ 1` the
downsampler preserves the global extremes: the minimum (and maximum)
`y` over the output equals the minimum (resp. maximum) `y` over the
input. -/
theorem downsample_preserves_extremes (points : List Point) (targetWidth : Nat)
    (hne : points ≠ []) (ht : 1 ≤ targetWidth) :
    ((downsampleMinMax points targetWidth).map Point.y).minimum =
      (points.map Point.y).minimum ∧
    ((downsampleMinMax points targetWidth).map Point.y).maximum =
      (points.map Point.y).maximum := by
  have hnpos : 0 < points.length := List.length_pos.mpr hne
  rw [downsampleMinMax]
  by_cases hfit : points.length ≤ targetWidth * 2
  · rw [if_pos hfit]
    exact ⟨rfl, rfl⟩
  · rw [if_neg hfit]
    set b := (points.length + targetWidth - 1) / targetWidth with hb
    have hbpos : 0 < b := ceilDiv_pos points.length targetWidth hnpos (by omega)
    have hsub := processBins_subset points b
    obtain ⟨xmin, hxminMem, hxmin⟩ := processBins_attains_min points b (by omega) hne
    obtain ⟨xmax, hxmaxMem, hxmax⟩ := processBins_attains_max points b (by omega) hne
    constructor
    · have h1 : ((processBins points b).map Point.y).minimum = (xmin.y : WithTop ℚ) := by
        rw [List.minimum_eq_coe_iff]
        constructor
        · exact List.mem_map.mpr ⟨xmin, hxminMem, rfl⟩
        · intro c hc
          obtain ⟨q, hq, rfl⟩ := List.mem_map.mp hc
          exact hxmin q (hsub q hq)
      have h2 : (points.map Point.y).minimum = (xmin.y : WithTop ℚ) := by
        rw [List.minimum_eq_coe_iff]
        constructor
        · exact List.mem_map.mpr ⟨xmin, hsub xmin hxminMem, rfl⟩
        · intro c hc
          obtain ⟨q, hq, rfl⟩ := List.mem_map.mp hc
          exact hxmin q hq
      rw [h1, h2]
    · have h1 : ((processBins points b).map Point.y).maximum = (xmax.y : WithBot ℚ) := by
        rw [List.maximum_eq_coe_iff]
        constructor
        · exact List.mem_map.mpr ⟨xmax, hxmaxMem, rfl⟩
        · intro c hc
          obtain ⟨q, hq, rfl⟩ := List.mem_map.mp hc
          exact hxmax q (hsub q hq)
      have h2 : (points.map Point.y).maximum = (xmax.y : WithBot ℚ) := by
        rw [List.maximum_eq_coe_iff]
        constructor
        · exact List.mem_map.mpr ⟨xmax, hsub xmax hxmaxMem, rfl⟩
        · intro c hc
          obtain ⟨q, hq, rfl⟩ := List.mem_map.mp hc
          exact hxmax q hq
      rw [h1, h2]

/-- Witness for C4: five points with `targetWidth = 1` (bucketing
branch, `binSize = 5`, one bucket). -/
theorem downsample_length_bounds_witness :
    downsampleMinMax [⟨1, 5⟩, ⟨2, 1⟩, ⟨3, 9⟩, ⟨4, 4⟩, ⟨5, 7⟩] 1 ≠ [] ∧
    (downsampleMinMax [⟨1, 5⟩, ⟨2, 1⟩, ⟨3, 9⟩, ⟨4, 4⟩, ⟨5, 7⟩] 1).length ≤
      ([⟨1, 5⟩, ⟨2, 1⟩, ⟨3, 9⟩, ⟨4, 4⟩, ⟨5, 7⟩] : List Point).length ∧
    (2 * 1 < ([⟨1, 5⟩, ⟨2, 1⟩, ⟨3, 9⟩, ⟨4, 4⟩, ⟨5, 7⟩] : List Point).length →
      (downsampleMinMax [⟨1, 5⟩, ⟨2, 1⟩, ⟨3, 9⟩, ⟨4, 4⟩, ⟨5, 7⟩] 1).length =
        2 * ((([⟨1, 5⟩, ⟨2, 1⟩, ⟨3, 9⟩, ⟨4, 4⟩, ⟨5, 7⟩] : List Point).length +
              ((([⟨1, 5⟩, ⟨2, 1⟩, ⟨3, 9⟩, ⟨4, 4⟩, ⟨5, 7⟩] : List Point).length + 1 - 1) / 1) -
              1) /
             ((([⟨1, 5⟩, ⟨2, 1⟩, ⟨3, 9⟩, ⟨4, 4⟩, ⟨5, 7⟩] : List Point).length + 1 - 1) / 1)) ∧
      (downsampleMinMax [⟨1, 5⟩, ⟨2, 1⟩, ⟨3, 9⟩, ⟨4, 4⟩, ⟨5, 7⟩] 1).length ≤ 2 * 1) :=
  downsample_length_bounds [⟨1, 5⟩, ⟨2, 1⟩, ⟨3, 9⟩, ⟨4, 4⟩, ⟨5, 7⟩] 1
    (List.cons_ne_nil _ _) (by decide)

/-- Witness for C5: five points with `y` extremes 1 and 9 and
`targetWidth = 1`; the output keeps minimum 1 and maximum 9. -/
theorem downsample_preserves_extremes_witness :
    ((downsampleMinMax [⟨1, 5⟩, ⟨2, 1⟩, ⟨3, 9⟩, ⟨4, 4⟩, ⟨5, 7⟩] 1).map Point.y).minimum =
      (([⟨1, 5⟩, ⟨2, 1⟩, ⟨3, 9⟩, ⟨4, 4⟩, ⟨5, 7⟩] : List Point).map Point.y).minimum ∧
    ((downsampleMinMax [⟨1, 5⟩, ⟨2, 1⟩, ⟨3, 9⟩, ⟨4, 4⟩, ⟨5, 7⟩] 1).map Point.y).maximum =
      (([⟨1, 5⟩, ⟨2, 1⟩, ⟨3, 9⟩, ⟨4, 4⟩, ⟨5, 7⟩] : List Point).map Point.y).maximum :=
  downsample_preserves_extremes [⟨1, 5⟩, ⟨2, 1⟩, ⟨3, 9⟩, ⟨4, 4⟩, ⟨5, 7⟩] 1
    (List.cons_ne_nil _ _) (by decide)

/-- C9: whenever token validation, fetch, data validation, export and
the local save all succeed but the upload collaborator reports failure
(`success = false`), the orchestrator returns `.ok` (it never throws):
the result carries the successful local path `p`, the metrics, and the
failed upload record. -/
theorem uploadFailure_not_escalated (config : ChartGenerationWithR2Config)
    (env : CollaboratorEnv) (res : OHLCVDataResult) (bytes : Nat) (p : String)
    (hv : env.validation.isValid = true)
    (hf : env.fetch = .ok res)
    (hdv : (validatePointData res.points).isValid = true)
    (he : env.exportBytes = .ok bytes)
    (hpath : config.outputPath = some p) (hpne : p ≠ "")
    (hl : env.localSave = .ok ())
    (hb : config.hasR2Bucket = true)
    (hu : env.upload.success = false) :
    generateChartWithR2 config env = .ok
      { metrics := generateChartMetrics res.points
          (downsampleMinMax res.points (round (config.width * 2)).toNat)
          config.entryPrice config.isBullish p (env.optimizedBytes bytes)
          config.width config.height config.dpr
        localPath := some p
        r2Upload := some env.upload } := by
  have hnil : res.points.length ≠ 0 := by
    intro h0
    rw [validatePointData, if_pos h0] at hdv
    simp at hdv
  have htruthy : jsStrTruthy config.outputPath = true := by
    rw [hpath, jsStrTruthy]
    simpa using hpne
  rw [generateChartWithR2]
  simp only [hv, hf, he, hl, hdv, hb, hu, htruthy, hpath, hnil,
    Bool.not_true, Bool.false_eq_true, if_false, if_neg hnil,
    Except.bind, bind, pure, Except.pure, if_true, Bool.not_eq_true]
  simp [if_neg hpne, jsStrTruthy, hpne]

/-- Witness for C9 (spec Scenario E): a concrete run where the local
save succeeds and the upload returns `success = false, error = "x"`;
the overall result is `.ok` with the local path and the failed upload
record. -/
theorem uploadFailure_not_escalated_witness :
    generateChartWithR2
      ⟨"tok", 24, 800, 360, 1, some "out.png", 5, true, true⟩
      ⟨⟨true, 100⟩, .ok ⟨[⟨0, 1⟩, ⟨1000, 2⟩], "tok", 24⟩, .ok 100, id, .ok (),
        ⟨false, none, some "x"⟩⟩ = .ok
      ⟨⟨2, 2, true, 5, 2, 100, "out.png", "800x360 @1x"⟩, some "out.png",
        some ⟨false, none, some "x"⟩⟩ := by
  have h := uploadFailure_not_escalated
    ⟨"tok", 24, 800, 360, 1, some "out.png", 5, true, true⟩
    ⟨⟨true, 100⟩, .ok ⟨[⟨0, 1⟩, ⟨1000, 2⟩], "tok", 24⟩, .ok 100, id, .ok (),
      ⟨false, none, some "x"⟩⟩
    ⟨[⟨0, 1⟩, ⟨1000, 2⟩], "tok", 24⟩ 100 "out.png"
    rfl rfl (by with_unfolding_all rfl) rfl rfl (by decide) rfl rfl rfl
  rw [h]
  with_unfolding_all rfl
